import Mathlib

/-!
Verification of the adaptive table layout engine of `lah` (src/lah.go).

Go strings are modeled as lists of bytes (`List Nat`, each entry < 256),
since the source manipulates strings byte by byte (`s[i]` in Go indexes
bytes).  Go `int` values that occur in the layout code are modeled as `Nat`:
on every input reachable from `printTable` the Go integers involved stay
non-negative (widths are rune counts, `excess` and `totalShrinkable` are
only formed and updated while provably non-negative), so `Nat` subtraction
agrees with Go subtraction there; the guards `shrinkable > 0` and
`totalShrinkable > 0` in the source coincide with `0 < w - m` and `0 < T`
on `Nat`.
-/

namespace Lah

/-- Inner scan of `stripANSI` (src/lah.go lines 220-224): after an escape
marker and a bracket, Go advances `j` past every non-alphabetic byte and
then past the first alphabetic byte (`j++` after the loop).  The returned
list is the remainder of the input after that advance; when no alphabetic
byte exists the whole remainder is consumed (Go leaves `j = len(s)+1`). -/
def dropParams : List Nat → List Nat
  | [] => []
  | c :: rest =>
    if (97 ≤ c ∧ c ≤ 122) ∨ (65 ≤ c ∧ c ≤ 90) then rest else dropParams rest

theorem dropParams_length_le (l : List Nat) : (dropParams l).length ≤ l.length := by
  induction l with
  | nil => simp [dropParams]
  | cons c rest ih =>
    by_cases h : (97 ≤ c ∧ c ≤ 122) ∨ (65 ≤ c ∧ c ≤ 90)
    · simp [dropParams, h]
    · simp only [dropParams, if_neg h]
      exact Nat.le_trans ih (Nat.le_succ _)

/-- Byte-level model of `stripANSI` (src/lah.go lines 213-233).  An escape
byte (27) followed by a bracket (91) removes everything through the first
alphabetic byte; an escape byte not followed by a bracket is skipped on its
own (Go sets `i = j` with `j = i+1` and writes nothing); every other byte is
copied to the output. -/
def stripANSI : List Nat → List Nat
  | [] => []
  | b :: rest =>
    if b = 27 then
      if rest.head? = some 91 then stripANSI (dropParams rest.tail)
      else stripANSI rest
    else b :: stripANSI rest
termination_by l => l.length
decreasing_by
  · have h1 := dropParams_length_le rest.tail
    have h2 : rest.tail.length ≤ rest.length := by
      cases rest <;> simp
    simp only [List.length_cons]
    omega
  · simp only [List.length_cons]
    omega
  · simp only [List.length_cons]
    omega

theorem stripANSI_nil : stripANSI [] = [] := by
  rw [stripANSI]

theorem stripANSI_cons_other (b : Nat) (rest : List Nat) (hb : b ≠ 27) :
    stripANSI (b :: rest) = b :: stripANSI rest := by
  rw [stripANSI, if_neg hb]

theorem stripANSI_esc_bracket (rest : List Nat) :
    stripANSI (27 :: 91 :: rest) = stripANSI (dropParams rest) := by
  rw [stripANSI, if_pos rfl, if_pos (show ((91 :: rest).head? = some 91) from rfl)]
  rfl

theorem stripANSI_cons_esc (rest : List Nat) (h : rest.head? ≠ some 91) :
    stripANSI (27 :: rest) = stripANSI rest := by
  rw [stripANSI, if_pos rfl, if_neg h]

theorem stripANSI_no_esc (l : List Nat) (h : ∀ b ∈ l, b ≠ 27) : stripANSI l = l := by
  induction l with
  | nil => exact stripANSI_nil
  | cons b rest ih =>
    rw [stripANSI_cons_other b rest (h b (by simp))]
    rw [ih (fun x hx => h x (by simp [hx]))]

theorem stripANSI_clean_append (l1 l2 : List Nat) (h : ∀ b ∈ l1, b ≠ 27) :
    stripANSI (l1 ++ l2) = l1 ++ stripANSI l2 := by
  induction l1 with
  | nil => simp
  | cons b rest ih =>
    rw [List.cons_append, stripANSI_cons_other b _ (h b (by simp))]
    rw [ih (fun x hx => h x (by simp [hx]))]
    rfl

/-- Classification of a leading byte by Go's utf8 decoder (the `first` table
of the utf8 package used by `utf8.RuneCountInString`): `some (size, lo, hi)`
gives the declared encoding size and the accept range for the second byte;
`none` marks an invalid leading byte (only queried for bytes at least 0x80,
ASCII is handled before the lookup). -/
def firstByteInfo (c : Nat) : Option (Nat × Nat × Nat) :=
  if 194 ≤ c ∧ c ≤ 223 then some (2, 128, 191)
  else if c = 224 then some (3, 160, 191)
  else if 225 ≤ c ∧ c ≤ 236 then some (3, 128, 191)
  else if c = 237 then some (3, 128, 159)
  else if 238 ≤ c ∧ c ≤ 239 then some (3, 128, 191)
  else if c = 240 then some (4, 144, 191)
  else if 241 ≤ c ∧ c ≤ 243 then some (4, 128, 191)
  else if c = 244 then some (4, 128, 143)
  else none

/-- Model of `utf8.RuneCountInString` from the Go standard library, used by
`calculateDisplayWidths` (src/lah.go line 349): ASCII bytes and invalid
leading bytes count one rune each and advance one byte; a valid leading byte
with well-formed continuation bytes advances by the encoding size; a short
or ill-formed sequence advances one byte (Go sets `size = 1`), counting one
rune for the bad byte. -/
def runeAdvance (c : Nat) (rest : List Nat) : Nat :=
  if c < 128 then 1
  else
    match firstByteInfo c with
    | none => 1
    | some (size, lo, hi) =>
      match rest with
      | [] => 1
      | b1 :: rest1 =>
        if rest1.length + 2 < size then 1
        else if b1 < lo ∨ hi < b1 then 1
        else if size = 2 then 2
        else
          match rest1 with
          | [] => 1
          | b2 :: rest2 =>
            if b2 < 128 ∨ 191 < b2 then 1
            else if size = 3 then 3
            else
              match rest2 with
              | [] => 1
              | b3 :: _ =>
                if b3 < 128 ∨ 191 < b3 then 1 else 4

/-- One rune is counted per iteration and the index advances by the decoded
size (`runeAdvance`), exactly as the loop of `utf8.RuneCountInString` does
(`n++` once per iteration, `i += size`). -/
def runeCount : List Nat → Nat
  | [] => 0
  | c :: rest => 1 + runeCount (rest.drop (runeAdvance c rest - 1))
termination_by l => l.length
decreasing_by
  have hd : (rest.drop (runeAdvance c rest - 1)).length ≤ rest.length := by
    simp [List.length_drop]
  simp only [List.length_cons]
  omega

theorem runeCount_nil : runeCount [] = 0 := by
  rw [runeCount]

theorem runeCount_cons_ascii (c : Nat) (rest : List Nat) (hc : c < 128) :
    runeCount (c :: rest) = 1 + runeCount rest := by
  rw [runeCount]
  have h : runeAdvance c rest = 1 := by
    rw [runeAdvance, if_pos hc]
  rw [h]
  rfl

theorem runeCount_ascii (l : List Nat) (h : ∀ b ∈ l, b < 128) :
    runeCount l = l.length := by
  induction l with
  | nil => exact runeCount_nil
  | cons c rest ih =>
    rw [runeCount_cons_ascii c rest (h c (by simp))]
    rw [ih (fun x hx => h x (by simp [hx]))]
    simp [Nat.add_comm]

/-- Display width of a styled byte string: rune count after escape-sequence
stripping, exactly as `calculateDisplayWidths` computes per cell
(src/lah.go lines 348-349). -/
def measure (s : List Nat) : Nat := runeCount (stripANSI s)

/-- Byte string for the plain text "Red Text". -/
def redTextPlain : List Nat := [82, 101, 100, 32, 84, 101, 120, 116]

/-- Byte string for the styled text "\x1b[31mRed Text\x1b[0m". -/
def redTextStyled : List Nat :=
  [27, 91, 51, 49, 109] ++ redTextPlain ++ [27, 91, 48, 109]

theorem stripANSI_redTextStyled : stripANSI redTextStyled = redTextPlain := by
  have e1 : redTextStyled
      = 27 :: 91 :: ([51, 49, 109] ++ (redTextPlain ++ [27, 91, 48, 109])) := rfl
  rw [e1, stripANSI_esc_bracket]
  have e2 : dropParams ([51, 49, 109] ++ (redTextPlain ++ [27, 91, 48, 109]))
      = redTextPlain ++ [27, 91, 48, 109] := rfl
  rw [e2, stripANSI_clean_append _ _ (by decide)]
  have e3 : ([27, 91, 48, 109] : List Nat) = 27 :: 91 :: [48, 109] := rfl
  rw [e3, stripANSI_esc_bracket]
  have e4 : dropParams [48, 109] = ([] : List Nat) := rfl
  rw [e4, stripANSI_nil, List.append_nil]

theorem measure_redText : measure redTextStyled = 8 ∧ measure redTextPlain = 8 := by
  constructor
  · rw [measure, stripANSI_redTextStyled, runeCount_ascii redTextPlain (by decide)]
    rfl
  · rw [measure, stripANSI_no_esc redTextPlain (by decide),
      runeCount_ascii redTextPlain (by decide)]
    rfl

/-- Natural column widths of a cell grid, `calculateDisplayWidths`
(src/lah.go lines 337-357): for the empty grid the result is `nil`;
otherwise one width per column of the first row (the header), each the
running maximum (starting from 0) over all rows of the measured display
width of the cell in that column.  Cells are byte strings; `getD` stands in
for Go's direct index, which the callers only use on rectangular grids. -/
def calculateDisplayWidths (data : List (List (List Nat))) : List Nat :=
  match data with
  | [] => []
  | r0 :: _ =>
    (List.range r0.length).map (fun j =>
      data.foldl (fun acc row => max acc (measure (row.getD j []))) 0)

/-- Per-column constraint tables of `columnConstraints` (src/lah.go lines
359-368): minimums and maximums for Name, Size, Modified, Perms and, when
git status is shown, Git. -/
def columnConstraints (showGit : Bool) : List Nat × List Nat :=
  if showGit then ([15, 6, 10, 10, 6], [50, 10, 15, 12, 12])
  else ([15, 6, 10, 10], [50, 10, 15, 12])

/-- `lookupMin` (src/lah.go lines 370-375): the declared positive minimum
for a column index, or the fallback when the index has no entry or the entry
is zero. -/
def lookupMin (mins : List Nat) (idx : Nat) (fallback : Nat) : Nat :=
  if idx < mins.length ∧ 0 < mins.getD idx 0 then mins.getD idx 0 else fallback

/-- One step of the clamp loop of `printTable` (src/lah.go lines 265-272):
raise the width to the minimum when an entry exists, is positive and the
width is below it, then lower the result to the maximum when an entry
exists, is positive and the result is above it. -/
def clampOne (mins maxs : List Nat) (i w : Nat) : Nat :=
  let w1 := if i < mins.length ∧ 0 < mins.getD i 0 ∧ w < mins.getD i 0
    then mins.getD i 0 else w
  if i < maxs.length ∧ 0 < maxs.getD i 0 ∧ maxs.getD i 0 < w1
    then maxs.getD i 0 else w1

/-- The clamp loop of `printTable` applied to every index, starting at
column `i`. -/
def clampWidths (mins maxs : List Nat) (i : Nat) (ws : List Nat) : List Nat :=
  match ws with
  | [] => []
  | w :: rest => clampOne mins maxs i w :: clampWidths mins maxs (i + 1) rest

/-- Sum of per-column minimums, `minContentWidth` of `printTable`
(src/lah.go lines 275-278): one `lookupMin` with fallback 4 per column. -/
def minContentSum (mins : List Nat) (i : Nat) (ws : List Nat) : Nat :=
  match ws with
  | [] => 0
  | _ :: rest => lookupMin mins i 4 + minContentSum mins (i + 1) rest

/-- `totalShrinkable` of `printTable` (src/lah.go lines 295-304): positive
slack above the minimum, summed over every column except Size (index 1) and
Perms (index 3). -/
def shrinkableSum (mins : List Nat) (i : Nat) (ws : List Nat) : Nat :=
  match ws with
  | [] => 0
  | w :: rest =>
    (if i ≠ 1 ∧ i ≠ 3 ∧ 0 < w - lookupMin mins i 4
      then w - lookupMin mins i 4 else 0) + shrinkableSum mins (i + 1) rest

/-- The proportional shrink loop of `printTable` (src/lah.go lines 306-325).
State `(e, T)` carries the remaining `excess` and `totalShrinkable`, both
updated inside the loop exactly as in the source.  On every input reachable
from `printTable` the Go `int` values stay non-negative (each shrink amount
is at most both the column slack and the remaining excess), so `Nat`
subtraction coincides with Go subtraction. -/
def shrinkGo (mins : List Nat) (i : Nat) (ws : List Nat) (e T : Nat) : List Nat :=
  match ws with
  | [] => []
  | w :: rest =>
    if i ≠ 1 ∧ i ≠ 3 then
      let m := lookupMin mins i 4
      let s := w - m
      if 0 < s ∧ 0 < T then
        let a0 := s * e / T
        let a := if s < a0 then s else a0
        let w1 := w - a
        (if w1 < m then m else w1) :: shrinkGo mins (i + 1) rest (e - a) (T - s)
      else
        w :: shrinkGo mins (i + 1) rest e T
    else
      w :: shrinkGo mins (i + 1) rest e T

/-- Outcome of the layout phase of `printTable`: either the advisory
"terminal too small" early return (nothing rendered, no crash), or the final
width vector handed to the renderer. -/
inductive LayoutOutcome where
  | tooSmall : LayoutOutcome
  | rendered : List Nat → LayoutOutcome
deriving DecidableEq

/-- Border overhead of a table of `n` columns: one 3-cell separator per
adjacent pair plus the two outer edges, `(len(displayWidths)-1)*3 + 2` in
`printTable` (src/lah.go lines 279, 290).  Column count is at least 1 in
every call (the header row exists), so `Nat` subtraction matches Go. -/
def borderW (n : Nat) : Nat := (n - 1) * 3 + 2

/-- Layout phase of `printTable` after clamping (src/lah.go lines 274-326):
refuse to render when the terminal budget is below the feasibility floor
(minimum content plus borders); otherwise shrink proportionally when the
total rendered width exceeds the budget, and hand the widths to the
renderer unchanged when it does not. -/
def layoutWidths (mins ws : List Nat) (terminalWidth : Nat) : LayoutOutcome :=
  if terminalWidth < minContentSum mins 0 ws + borderW ws.length then
    LayoutOutcome.tooSmall
  else if ws.sum + borderW ws.length > terminalWidth then
    LayoutOutcome.rendered
      (shrinkGo mins 0 ws (ws.sum + borderW ws.length - terminalWidth)
        (shrinkableSum mins 0 ws))
  else
    LayoutOutcome.rendered ws

/-- Full layout pipeline of `printTable` on a formatted cell grid: natural
widths, clamp against the column constraint tables, then fit to the
terminal budget. -/
def printTableLayout (data : List (List (List Nat))) (showGit : Bool)
    (terminalWidth : Nat) : LayoutOutcome :=
  layoutWidths (columnConstraints showGit).1
    (clampWidths (columnConstraints showGit).1 (columnConstraints showGit).2 0
      (calculateDisplayWidths data))
    terminalWidth

/-- Every width is at least its column minimum (`lookupMin` with fallback
4), starting at column `i`. -/
def allAtLeastMins (mins : List Nat) (i : Nat) (ws : List Nat) : Bool :=
  match ws with
  | [] => true
  | w :: rest => decide (lookupMin mins i 4 ≤ w) && allAtLeastMins mins (i + 1) rest

/-- Unit exponent loop of `formatSize` (src/lah.go lines 414-418): starting
from `n = size / 1024`, divide by 1024 while at least 1024, counting the
divisions. -/
def sizeExpGo (n exp : Nat) : Nat :=
  if 1024 ≤ n then sizeExpGo (n / 1024) (exp + 1) else exp
termination_by n
decreasing_by exact Nat.div_lt_self (by omega) (by omega)

/-- Unit table of `formatSize` (src/lah.go line 420). -/
def sizeUnits : List String := ["KB", "MB", "GB", "TB"]

/-- `formatSize` (src/lah.go lines 405-424).  The `%.1f` floating-point
mantissa is not modeled; the result keeps the selected suffix.  `none`
models the Go panic when `units[exp]` indexes out of range. -/
def formatSize (size : Nat) (isDir : Bool) : Option String :=
  if isDir then some ("-")
  else if size < 1024 then some (toString size ++ " B")
  else sizeUnits.get? (sizeExpGo (size / 1024) 0)

theorem allAtLeastMins_cons (mins : List Nat) (i w : Nat) (rest : List Nat) :
    allAtLeastMins mins i (w :: rest) = true ↔
      lookupMin mins i 4 ≤ w ∧ allAtLeastMins mins (i + 1) rest = true := by
  simp [allAtLeastMins]

theorem slack_div_le (s e T : Nat) (hs : s ≤ T) (hT : 0 < T) : s * e / T ≤ e := by
  have h1 : s * e ≤ T * e := Nat.mul_le_mul_right e hs
  have h2 : s * e / T ≤ T * e / T := Nat.div_le_div_right h1
  rwa [Nat.mul_div_cancel_left e hT] at h2

theorem key_div_aux (k a b : Nat) : k * (k + a + b) ≤ (k + a) * (k + b) := by
  have h : k * (k + a + b) + a * b = (k + a) * (k + b) := by ring
  exact Nat.le.intro h

theorem key_div (s e T : Nat) (hs : s ≤ T) (he : e ≤ T) (hT : 0 < T) :
    e + s ≤ T + s * e / T := by
  rcases Nat.le_total (e + s) T with h | h
  · exact Nat.le_trans h (Nat.le_add_right T _)
  · set k := e + s - T with hk
    obtain ⟨a, ha⟩ : ∃ a, s = k + a := ⟨s - k, by omega⟩
    obtain ⟨b, hb⟩ : ∃ b, e = k + b := ⟨e - k, by omega⟩
    have hT2 : T = k + a + b := by omega
    have hle : k * T ≤ s * e := by
      rw [ha, hb, hT2]
      exact key_div_aux k a b
    have hdiv : k ≤ s * e / T := (Nat.le_div_iff_mul_le hT).mpr hle
    omega

theorem shrinkableSum_le_sum (mins : List Nat) :
    ∀ (ws : List Nat) (i : Nat), shrinkableSum mins i ws ≤ ws.sum := by
  intro ws
  induction ws with
  | nil => intro i; simp [shrinkableSum]
  | cons w rest ih =>
    intro i
    have h1 := ih (i + 1)
    by_cases hc : i ≠ 1 ∧ i ≠ 3 ∧ 0 < w - lookupMin mins i 4
    · simp only [shrinkableSum, if_pos hc, List.sum_cons]
      omega
    · simp only [shrinkableSum, if_neg hc, List.sum_cons]
      omega

theorem minContent_shrinkable_le (mins : List Nat) :
    ∀ (ws : List Nat) (i : Nat), allAtLeastMins mins i ws = true →
      minContentSum mins i ws + shrinkableSum mins i ws ≤ ws.sum := by
  intro ws
  induction ws with
  | nil => intro i _; simp [minContentSum, shrinkableSum]
  | cons w rest ih =>
    intro i h
    rw [allAtLeastMins_cons] at h
    have h1 := ih (i + 1) h.2
    have h2 := h.1
    by_cases hc : i ≠ 1 ∧ i ≠ 3 ∧ 0 < w - lookupMin mins i 4
    · simp only [minContentSum, shrinkableSum, if_pos hc, List.sum_cons]
      omega
    · simp only [minContentSum, shrinkableSum, if_neg hc, List.sum_cons]
      omega

theorem shrinkGo_length (mins : List Nat) :
    ∀ (ws : List Nat) (i e T : Nat), (shrinkGo mins i ws e T).length = ws.length := by
  intro ws
  induction ws with
  | nil => intro i e T; rw [shrinkGo]
  | cons w rest ih =>
    intro i e T
    rw [shrinkGo]
    by_cases hc : i ≠ 1 ∧ i ≠ 3
    · simp only [if_pos hc]
      by_cases hs : 0 < w - lookupMin mins i 4 ∧ 0 < T
      · simp only [if_pos hs, List.length_cons, ih]
      · simp only [if_neg hs, List.length_cons, ih]
    · simp only [if_neg hc, List.length_cons, ih]

theorem shrinkGo_atLeast (mins : List Nat) :
    ∀ (ws : List Nat) (i e T : Nat), allAtLeastMins mins i ws = true →
      allAtLeastMins mins i (shrinkGo mins i ws e T) = true := by
  intro ws
  induction ws with
  | nil => intro i e T h; rw [shrinkGo]; exact h
  | cons w rest ih =>
    intro i e T h
    rw [allAtLeastMins_cons] at h
    rw [shrinkGo]
    by_cases hc : i ≠ 1 ∧ i ≠ 3
    · simp only [if_pos hc]
      by_cases hs : 0 < w - lookupMin mins i 4 ∧ 0 < T
      · simp only [if_pos hs]
        rw [allAtLeastMins_cons]
        refine ⟨?_, ih (i + 1) _ _ h.2⟩
        by_cases hw : w - (if w - lookupMin mins i 4 <
            (w - lookupMin mins i 4) * e / T then w - lookupMin mins i 4
            else (w - lookupMin mins i 4) * e / T) < lookupMin mins i 4
        · rw [if_pos hw]
        · rw [if_neg hw]
          omega
      · simp only [if_neg hs]
        rw [allAtLeastMins_cons]
        exact ⟨h.1, ih (i + 1) _ _ h.2⟩
    · simp only [if_neg hc]
      rw [allAtLeastMins_cons]
      exact ⟨h.1, ih (i + 1) _ _ h.2⟩

theorem shrinkGo_sum_exact (mins : List Nat) :
    ∀ (ws : List Nat) (i e : Nat), e ≤ shrinkableSum mins i ws →
      (shrinkGo mins i ws e (shrinkableSum mins i ws)).sum = ws.sum - e := by
  intro ws
  induction ws with
  | nil =>
    intro i e he
    simp only [shrinkableSum] at he
    rw [shrinkGo]
    simp only [List.sum_nil]
    omega
  | cons w rest ih =>
    intro i e he
    by_cases hc : i ≠ 1 ∧ i ≠ 3
    · by_cases hs : 0 < w - lookupMin mins i 4
      · -- the column is counted in totalShrinkable and processed by the loop
        have hsum : shrinkableSum mins i (w :: rest)
            = (w - lookupMin mins i 4) + shrinkableSum mins (i + 1) rest := by
          rw [shrinkableSum,
            if_pos (show i ≠ 1 ∧ i ≠ 3 ∧ 0 < w - lookupMin mins i 4
              from ⟨hc.1, hc.2, hs⟩)]
        rw [hsum] at he ⊢
        rw [shrinkGo]
        simp only [if_pos hc]
        have hT0 : 0 < (w - lookupMin mins i 4) + shrinkableSum mins (i + 1) rest := by
          omega
        simp only [if_pos (show 0 < w - lookupMin mins i 4
          ∧ 0 < (w - lookupMin mins i 4) + shrinkableSum mins (i + 1) rest
          from ⟨hs, hT0⟩)]
        have ha0e : (w - lookupMin mins i 4) * e
            / ((w - lookupMin mins i 4) + shrinkableSum mins (i + 1) rest) ≤ e :=
          slack_div_le _ _ _ (by omega) hT0
        have hkey : e + (w - lookupMin mins i 4)
            ≤ ((w - lookupMin mins i 4) + shrinkableSum mins (i + 1) rest)
              + (w - lookupMin mins i 4) * e
                / ((w - lookupMin mins i 4) + shrinkableSum mins (i + 1) rest) :=
          key_div _ _ _ (by omega) he hT0
        by_cases hcap : w - lookupMin mins i 4 < (w - lookupMin mins i 4) * e
            / ((w - lookupMin mins i 4) + shrinkableSum mins (i + 1) rest)
        · -- the shrink amount is capped at the slack
          rw [if_pos hcap]
          have hw1 : ¬ w - (w - lookupMin mins i 4) < lookupMin mins i 4 := by omega
          rw [if_neg hw1]
          have harg : (w - lookupMin mins i 4) + shrinkableSum mins (i + 1) rest
              - (w - lookupMin mins i 4) = shrinkableSum mins (i + 1) rest := by omega
          rw [harg]
          have he2 : e - (w - lookupMin mins i 4) ≤ shrinkableSum mins (i + 1) rest := by
            omega
          rw [List.sum_cons, ih (i + 1) _ he2]
          have hrs := shrinkableSum_le_sum mins rest (i + 1)
          rw [List.sum_cons]
          omega
        · -- the proportional amount is applied unchanged
          rw [if_neg hcap]
          have hw1 : ¬ w - (w - lookupMin mins i 4) * e
              / ((w - lookupMin mins i 4) + shrinkableSum mins (i + 1) rest)
              < lookupMin mins i 4 := by omega
          rw [if_neg hw1]
          have harg : (w - lookupMin mins i 4) + shrinkableSum mins (i + 1) rest
              - (w - lookupMin mins i 4) = shrinkableSum mins (i + 1) rest := by omega
          rw [harg]
          have he2 : e - (w - lookupMin mins i 4) * e
              / ((w - lookupMin mins i 4) + shrinkableSum mins (i + 1) rest)
              ≤ shrinkableSum mins (i + 1) rest := by omega
          rw [List.sum_cons, ih (i + 1) _ he2]
          have hrs := shrinkableSum_le_sum mins rest (i + 1)
          rw [List.sum_cons]
          omega
      · -- zero slack: the column contributes nothing and is skipped
        have hsum : shrinkableSum mins i (w :: rest)
            = shrinkableSum mins (i + 1) rest := by
          rw [shrinkableSum, if_neg (by tauto)]
          omega
        rw [hsum] at he ⊢
        rw [shrinkGo]
        simp only [if_pos hc]
        rw [if_neg (by tauto)]
        rw [List.sum_cons, ih (i + 1) _ he]
        have hrs := shrinkableSum_le_sum mins rest (i + 1)
        rw [List.sum_cons]
        omega
    · -- Size or Perms column: never counted, never shrunk
      have hsum : shrinkableSum mins i (w :: rest)
          = shrinkableSum mins (i + 1) rest := by
        rw [shrinkableSum, if_neg (by tauto)]
        omega
      rw [hsum] at he ⊢
      rw [shrinkGo]
      rw [if_neg hc]
      rw [List.sum_cons, ih (i + 1) _ he]
      have hrs := shrinkableSum_le_sum mins rest (i + 1)
      rw [List.sum_cons]
      omega

theorem clampWidths_atLeast (mins maxs : List Nat)
    (hpos : ∀ j, j < mins.length → 0 < mins.getD j 0)
    (hmm : ∀ j, j < mins.length → j < maxs.length → mins.getD j 0 ≤ maxs.getD j 0) :
    ∀ (ws : List Nat) (i : Nat), i + ws.length ≤ mins.length →
      allAtLeastMins mins i (clampWidths mins maxs i ws) = true := by
  intro ws
  induction ws with
  | nil => intro i _; rw [clampWidths]; rfl
  | cons w rest ih =>
    intro i h
    have hi : i < mins.length := by
      simp only [List.length_cons] at h
      omega
    rw [clampWidths, allAtLeastMins_cons]
    constructor
    · have hp := hpos i hi
      have hlm : lookupMin mins i 4 = mins.getD i 0 := by
        rw [lookupMin, if_pos (show i < mins.length ∧ 0 < mins.getD i 0 from ⟨hi, hp⟩)]
      rw [hlm, clampOne]
      by_cases h1 : i < mins.length ∧ 0 < mins.getD i 0 ∧ w < mins.getD i 0
      · simp only [if_pos h1]
        by_cases h2 : i < maxs.length ∧ 0 < maxs.getD i 0
            ∧ maxs.getD i 0 < mins.getD i 0
        · have := hmm i hi h2.1
          omega
        · simp only [if_neg h2]
          exact Nat.le_refl _
      · have hw : mins.getD i 0 ≤ w := by
          rcases Nat.lt_or_ge w (mins.getD i 0) with hlt | hge
          · exact absurd ⟨hi, hp, hlt⟩ h1
          · exact hge
        simp only [if_neg h1]
        by_cases h2 : i < maxs.length ∧ 0 < maxs.getD i 0 ∧ maxs.getD i 0 < w
        · simp only [if_pos h2]
          exact hmm i hi h2.1
        · simp only [if_neg h2]
          exact hw
    · exact ih (i + 1) (by simp only [List.length_cons] at h; omega)

theorem clamp_constraints_atLeast (showGit : Bool) (nat : List Nat)
    (hlen : nat.length ≤ ((columnConstraints showGit).1).length) :
    allAtLeastMins (columnConstraints showGit).1 0
      (clampWidths (columnConstraints showGit).1 (columnConstraints showGit).2 0 nat)
      = true := by
  cases showGit with
  | false =>
    have h1 : (columnConstraints false).1 = [15, 6, 10, 10] := rfl
    have h2 : (columnConstraints false).2 = [50, 10, 15, 12] := rfl
    simp only [h1, h2] at hlen ⊢
    refine clampWidths_atLeast [15, 6, 10, 10] [50, 10, 15, 12] ?_ ?_ nat 0 (by
      simp only [List.length_cons, List.length_nil] at hlen ⊢
      omega)
    · intro j hj
      have hj4 : j < 4 := by simpa using hj
      interval_cases j <;> decide
    · intro j hj _
      have hj4 : j < 4 := by simpa using hj
      interval_cases j <;> decide
  | true =>
    have h1 : (columnConstraints true).1 = [15, 6, 10, 10, 6] := rfl
    have h2 : (columnConstraints true).2 = [50, 10, 15, 12, 12] := rfl
    simp only [h1, h2] at hlen ⊢
    refine clampWidths_atLeast [15, 6, 10, 10, 6] [50, 10, 15, 12, 12] ?_ ?_ nat 0 (by
      simp only [List.length_cons, List.length_nil] at hlen ⊢
      omega)
    · intro j hj
      have hj5 : j < 5 := by simpa using hj
      interval_cases j <;> decide
    · intro j hj _
      have hj5 : j < 5 := by simpa using hj
      interval_cases j <;> decide

theorem layoutWidths_fits (mins ws : List Nat) (budget : Nat)
    (hAL : allAtLeastMins mins 0 ws = true)
    (hfit : ws.sum + borderW ws.length ≤ budget) :
    layoutWidths mins ws budget = LayoutOutcome.rendered ws := by
  have h1 := minContent_shrinkable_le mins ws 0 hAL
  rw [layoutWidths, if_neg (by omega), if_neg (by omega)]

theorem layoutWidths_over (mins ws : List Nat) (budget : Nat)
    (hAL : allAtLeastMins mins 0 ws = true)
    (hover : budget < ws.sum + borderW ws.length)
    (hslack : ws.sum + borderW ws.length - budget ≤ shrinkableSum mins 0 ws) :
    layoutWidths mins ws budget
      = LayoutOutcome.rendered
          (shrinkGo mins 0 ws (ws.sum + borderW ws.length - budget)
            (shrinkableSum mins 0 ws))
    ∧ (shrinkGo mins 0 ws (ws.sum + borderW ws.length - budget)
          (shrinkableSum mins 0 ws)).sum + borderW ws.length = budget := by
  have hms := minContent_shrinkable_le mins ws 0 hAL
  have hbord : minContentSum mins 0 ws + borderW ws.length ≤ budget := by omega
  constructor
  · rw [layoutWidths, if_neg (by omega), if_pos (by omega)]
  · have hsum := shrinkGo_sum_exact mins ws 0 (ws.sum + borderW ws.length - budget) hslack
    omega

theorem layoutWidths_rendered_inv (mins ws : List Nat) (budget : Nat) (ws' : List Nat)
    (h : layoutWidths mins ws budget = LayoutOutcome.rendered ws') :
    ws' = ws ∨ ws' = shrinkGo mins 0 ws (ws.sum + borderW ws.length - budget)
      (shrinkableSum mins 0 ws) := by
  rw [layoutWidths] at h
  by_cases h1 : budget < minContentSum mins 0 ws + borderW ws.length
  · rw [if_pos h1] at h
    exact absurd h (by simp)
  · rw [if_neg h1] at h
    by_cases h2 : ws.sum + borderW ws.length > budget
    · rw [if_pos h2] at h
      right
      simp only [LayoutOutcome.rendered.injEq] at h
      exact h.symm
    · rw [if_neg h2] at h
      left
      simp only [LayoutOutcome.rendered.injEq] at h
      exact h.symm

theorem le_foldl_max {α : Type} (f : α → Nat) :
    ∀ (l : List α) (a : Nat), a ≤ l.foldl (fun acc y => max acc (f y)) a := by
  intro l
  induction l with
  | nil => intro a; simp
  | cons y rest ih =>
    intro a
    rw [List.foldl_cons]
    exact Nat.le_trans (Nat.le_max_left a (f y)) (ih _)

theorem foldl_max_le_mem {α : Type} (f : α → Nat) :
    ∀ (l : List α) (a : Nat) (x : α), x ∈ l →
      f x ≤ l.foldl (fun acc y => max acc (f y)) a := by
  intro l
  induction l with
  | nil => intro a x hx; simp at hx
  | cons y rest ih =>
    intro a x hx
    rw [List.foldl_cons]
    rcases List.mem_cons.mp hx with h | h
    · subst h
      exact Nat.le_trans (Nat.le_max_right a (f x)) (le_foldl_max f rest _)
    · exact ih _ x h

theorem foldl_max_attained {α : Type} (f : α → Nat) :
    ∀ (l : List α) (a : Nat),
      l.foldl (fun acc y => max acc (f y)) a = a ∨
      ∃ x ∈ l, l.foldl (fun acc y => max acc (f y)) a = f x := by
  intro l
  induction l with
  | nil => intro a; left; rfl
  | cons y rest ih =>
    intro a
    rw [List.foldl_cons]
    rcases ih (max a (f y)) with h | h
    · rw [h]
      rcases Nat.le_total a (f y) with hle | hle
      · right
        exact ⟨y, by simp, by rw [Nat.max_eq_right hle]⟩
      · left
        rw [Nat.max_eq_left hle]
    · right
      obtain ⟨x, hx, hfx⟩ := h
      exact ⟨x, by simp [hx], hfx⟩

theorem getD_range_map (g : Nat → Nat) (n j : Nat) (hj : j < n) :
    ((List.range n).map g).getD j 0 = g j := by
  rw [List.getD_eq_getD_get?, List.get?_map, List.get?_range hj]
  rfl

theorem sizeExpGo_stop (n e : Nat) (h : n < 1024) : sizeExpGo n e = e := by
  rw [sizeExpGo, if_neg (by omega)]

theorem sizeExpGo_step (n e : Nat) (h : 1024 ≤ n) :
    sizeExpGo n e = sizeExpGo (n / 1024) (e + 1) := by
  conv_lhs => rw [sizeExpGo]
  rw [if_pos h]

theorem sizeExpGo_le (k : Nat) : ∀ (n e : Nat), n < 1024 ^ (k + 1) →
    sizeExpGo n e ≤ e + k := by
  induction k with
  | zero =>
    intro n e h
    rw [sizeExpGo_stop n e (by simpa using h)]
    omega
  | succ k ih =>
    intro n e h
    by_cases hn : 1024 ≤ n
    · rw [sizeExpGo_step n e hn]
      have hdiv : n / 1024 < 1024 ^ (k + 1) := by
        rw [Nat.div_lt_iff_lt_mul (by omega)]
        calc n < 1024 ^ (k + 1 + 1) := h
          _ = 1024 ^ (k + 1) * 1024 := by ring
      have := ih (n / 1024) (e + 1) hdiv
      omega
    · rw [sizeExpGo_stop n e (by omega)]
      omega

theorem sizeExpGo_pow4 : sizeExpGo (1024 ^ 4) 0 = 4 := by
  have d1 : (1024 : Nat) ^ 4 / 1024 = 1024 ^ 3 := by norm_num
  have d2 : (1024 : Nat) ^ 3 / 1024 = 1024 ^ 2 := by norm_num
  have d3 : (1024 : Nat) ^ 2 / 1024 = 1024 := by norm_num
  have d4 : (1024 : Nat) / 1024 = 1 := by norm_num
  rw [sizeExpGo_step _ _ (by norm_num), d1]
  rw [sizeExpGo_step _ _ (by norm_num), d2]
  rw [sizeExpGo_step _ _ (by norm_num), d3]
  rw [sizeExpGo_step _ _ (by norm_num), d4]
  rw [sizeExpGo_stop _ _ (by norm_num)]

/-- C1 counterexample: with clamped widths [15, 9, 10, 10] (Name and
Modified already at their minimums, so total shrinkable slack is zero) and
terminal budget 53, the floor check passes (floor is 52), yet the code
renders the table at total width 55 > 53 instead of returning a failure:
there is no infeasible-by-slack path in `printTable`. -/
theorem C1_counterexample :
    layoutWidths [15, 6, 10, 10]
        (clampWidths [15, 6, 10, 10] [50, 10, 15, 12] 0 [15, 9, 10, 10]) 53
      = LayoutOutcome.rendered [15, 9, 10, 10]
    ∧ shrinkableSum [15, 6, 10, 10] 0 [15, 9, 10, 10] = 0
    ∧ 53 < ([15, 9, 10, 10] : List Nat).sum + borderW 4 := by
  decide

/-- C1 (amended): when the layout renders and the total shrinkable slack of
the clamped widths covers the excess over the budget, the sum of the final
widths plus border overhead is at most the terminal budget; when the slack
is insufficient the code renders an over-wide table rather than reporting
failure, so the bound only holds under the slack hypothesis. -/
theorem C1_amended_fit_within_budget (showGit : Bool) (nat : List Nat) (budget : Nat)
    (hlen : nat.length ≤ ((columnConstraints showGit).1).length)
    (hslack :
      (clampWidths (columnConstraints showGit).1 (columnConstraints showGit).2 0 nat).sum
        + borderW (clampWidths (columnConstraints showGit).1
            (columnConstraints showGit).2 0 nat).length - budget
      ≤ shrinkableSum (columnConstraints showGit).1 0
          (clampWidths (columnConstraints showGit).1 (columnConstraints showGit).2 0 nat)) :
    ∃ ws', layoutWidths (columnConstraints showGit).1
        (clampWidths (columnConstraints showGit).1 (columnConstraints showGit).2 0 nat)
        budget
      = LayoutOutcome.rendered ws'
      ∧ ws'.sum + borderW ws'.length ≤ budget := by
  have hAL := clamp_constraints_atLeast showGit nat hlen
  by_cases hfit :
      (clampWidths (columnConstraints showGit).1 (columnConstraints showGit).2 0 nat).sum
        + borderW (clampWidths (columnConstraints showGit).1
            (columnConstraints showGit).2 0 nat).length ≤ budget
  · exact ⟨_, layoutWidths_fits _ _ _ hAL hfit, hfit⟩
  · have hover : budget <
        (clampWidths (columnConstraints showGit).1 (columnConstraints showGit).2 0 nat).sum
          + borderW (clampWidths (columnConstraints showGit).1
              (columnConstraints showGit).2 0 nat).length := by omega
    obtain ⟨h1, h2⟩ := layoutWidths_over _ _ _ hAL hover hslack
    refine ⟨_, h1, ?_⟩
    rw [shrinkGo_length]
    omega

/-- C1 witness: the amended bound instantiated at the four-column table with
natural widths [22, 7, 14, 10] and terminal budget 60. -/
theorem C1_amended_witness :
    (([22, 7, 14, 10] : List Nat).length ≤ ((columnConstraints false).1).length
      ∧ (clampWidths (columnConstraints false).1 (columnConstraints false).2 0
            [22, 7, 14, 10]).sum
          + borderW (clampWidths (columnConstraints false).1 (columnConstraints false).2 0
              [22, 7, 14, 10]).length - 60
        ≤ shrinkableSum (columnConstraints false).1 0
            (clampWidths (columnConstraints false).1 (columnConstraints false).2 0
              [22, 7, 14, 10]))
    ∧ ∃ ws', layoutWidths (columnConstraints false).1
        (clampWidths (columnConstraints false).1 (columnConstraints false).2 0
          [22, 7, 14, 10]) 60
      = LayoutOutcome.rendered ws' ∧ ws'.sum + borderW ws'.length ≤ 60 :=
  ⟨⟨by decide, by decide⟩,
    C1_amended_fit_within_budget false [22, 7, 14, 10] 60 (by decide) (by decide)⟩

/-- C2 counterexample: on the scenario of the claim (clamped widths
[22, 7, 14, 10], minimums [15, 6, 10, 10], budget 60) the code does not
produce [19, 7, 13, 10]: the loop updates `excess` and `totalShrinkable` in
place, so Modified is reduced by floor(4*2/4) = 2, not floor(4*4/11) = 1. -/
theorem C2_counterexample :
    layoutWidths [15, 6, 10, 10]
        (clampWidths [15, 6, 10, 10] [50, 10, 15, 12] 0 [22, 7, 14, 10]) 60
      ≠ LayoutOutcome.rendered [19, 7, 13, 10] := by
  decide

/-- C2 (amended): on clamped widths [22, 7, 14, 10] with minimums
[15, 6, 10, 10] and budget 60 the fit step computes excess 4 over total
slack 11 and returns [20, 7, 12, 10]: Name shrinks by floor(7*4/11) = 2,
then Modified shrinks by floor(4*2/4) = 2 against the updated excess 2 and
updated slack 4, for a total rendered width of exactly 60. -/
theorem C2_amended_scenario :
    layoutWidths [15, 6, 10, 10]
        (clampWidths [15, 6, 10, 10] [50, 10, 15, 12] 0 [22, 7, 14, 10]) 60
      = LayoutOutcome.rendered [20, 7, 12, 10]
    ∧ shrinkableSum [15, 6, 10, 10] 0 [22, 7, 14, 10] = 11
    ∧ ([20, 7, 12, 10] : List Nat).sum + borderW 4 = 60 := by
  decide

/-- C3 counterexample: with a constraint entry whose minimum 10 exceeds its
maximum 5, the clamp step returns the maximum, not the minimum: natural
width 3 is clamped to 5, which is below the declared floor 10. -/
theorem C3_counterexample :
    clampWidths [10] [5] 0 [3] = [5] ∧ (5 : Nat) < 10 := by
  decide

/-- C3 (amended): when a column's maximum is below its minimum the clamp
step returns the maximum for every natural width (the max clamp runs second
and wins); the program's own constraint tables satisfy min at most max in
every column, and for them every clamped width is at least the column's
declared minimum. -/
theorem C3_amended_max_precedence (showGit : Bool) (nat : List Nat)
    (hlen : nat.length ≤ ((columnConstraints showGit).1).length) :
    (∀ w, clampWidths [10] [5] 0 [w] = [5])
    ∧ allAtLeastMins (columnConstraints showGit).1 0
        (clampWidths (columnConstraints showGit).1 (columnConstraints showGit).2 0 nat)
        = true := by
  constructor
  · intro w
    have h5 : clampOne [10] [5] 0 w = 5 := by
      rw [clampOne]
      by_cases h1 : w < 10
      · rw [if_pos (show (0 < ([10] : List Nat).length
            ∧ 0 < ([10] : List Nat).getD 0 0 ∧ w < ([10] : List Nat).getD 0 0)
            from ⟨by decide, by decide, h1⟩)]
        rw [if_pos (by decide)]
        rfl
      · have h5w : (5 : Nat) < w := by omega
        rw [if_neg (show ¬(0 < ([10] : List Nat).length
            ∧ 0 < ([10] : List Nat).getD 0 0 ∧ w < ([10] : List Nat).getD 0 0)
            from fun hcon => h1 hcon.2.2)]
        rw [if_pos (show (0 < ([5] : List Nat).length
            ∧ 0 < ([5] : List Nat).getD 0 0 ∧ ([5] : List Nat).getD 0 0 < w)
            from ⟨by decide, by decide, h5w⟩)]
        rfl
    rw [clampWidths, clampWidths, h5]
  · exact clamp_constraints_atLeast showGit nat hlen

/-- C3 witness: the amended claim instantiated at the four-column table with
natural widths [3, 2, 1, 0]. -/
theorem C3_amended_witness :
    (([3, 2, 1, 0] : List Nat).length ≤ ((columnConstraints false).1).length)
    ∧ ((∀ w, clampWidths [10] [5] 0 [w] = [5])
      ∧ allAtLeastMins (columnConstraints false).1 0
          (clampWidths (columnConstraints false).1 (columnConstraints false).2 0
            [3, 2, 1, 0]) = true) :=
  ⟨by decide, C3_amended_max_precedence false [3, 2, 1, 0] (by decide)⟩

/-- C4 counterexample: an escape marker not followed by a bracket is not a
kept, counted pass-through character: the text measurer drops it, so a lone
marker strips to the empty string and measures 0, not 1. -/
theorem C4_counterexample : stripANSI [27] = [] ∧ measure [27] = 0 := by
  have h1 : stripANSI [27] = [] := by
    rw [stripANSI_cons_esc [] (by simp), stripANSI_nil]
  refine ⟨h1, ?_⟩
  rw [measure, h1, runeCount_nil]

/-- C4 (amended): an escape marker not followed by a bracket is dropped on
its own while all following content is preserved (nothing after it is
eaten), and measurement is total: stripping and measuring the remainder are
unchanged.  Markers followed by a bracket consume through the first
alphabetic byte instead. -/
theorem C4_amended_bare_escape (rest : List Nat) (h : rest.head? ≠ some 91) :
    stripANSI (27 :: rest) = stripANSI rest
    ∧ measure (27 :: rest) = measure rest := by
  have h1 := stripANSI_cons_esc rest h
  exact ⟨h1, by rw [measure, h1, measure]⟩

/-- C4 witness: the amended claim at the two-byte remainder "AB". -/
theorem C4_amended_witness :
    (([65, 66] : List Nat).head? ≠ some 91)
    ∧ (stripANSI (27 :: [65, 66]) = stripANSI [65, 66]
      ∧ measure (27 :: [65, 66]) = measure [65, 66]) :=
  ⟨by decide, C4_amended_bare_escape [65, 66] (by decide)⟩

/-- C5 counterexample: the measured display width of "Red Text" (styled or
plain) is 8, not 9 as the claim states. -/
theorem C5_counterexample : measure redTextStyled ≠ 9 ∧ measure redTextPlain ≠ 9 := by
  obtain ⟨h1, h2⟩ := measure_redText
  omega

/-- C5 (amended): measuring the styled string "\x1b[31mRed Text\x1b[0m"
and the plain string "Red Text" gives the same display width, namely 8. -/
theorem C5_amended_measure_eight :
    measure redTextStyled = measure redTextPlain ∧ measure redTextPlain = 8 := by
  obtain ⟨h1, h2⟩ := measure_redText
  exact ⟨by rw [h1, h2], h2⟩

/-- C6: whenever the terminal budget is below the feasibility floor (the sum
of the declared column minimums, with fallback 4, plus border overhead), the
layout phase returns the advisory too-small outcome: nothing is rendered and
the function returns normally (no crash), exactly the early return of
`printTable` that prints the advisory message. -/
theorem C6_infeasible_budget (mins ws : List Nat) (budget : Nat)
    (h : budget < minContentSum mins 0 ws + borderW ws.length) :
    layoutWidths mins ws budget = LayoutOutcome.tooSmall := by
  rw [layoutWidths, if_pos h]

/-- C6 witness: the four-column table at terminal budget 40, below the
floor 52. -/
theorem C6_witness :
    (40 < minContentSum [15, 6, 10, 10] 0 [22, 7, 14, 10]
        + borderW ([22, 7, 14, 10] : List Nat).length)
    ∧ layoutWidths [15, 6, 10, 10] [22, 7, 14, 10] 40 = LayoutOutcome.tooSmall :=
  ⟨by decide, C6_infeasible_budget [15, 6, 10, 10] [22, 7, 14, 10] 40 (by decide)⟩

/-- C7: for a non-empty rectangular grid and every column index, the natural
width of the column is exactly the maximum over all rows (header included)
of the measured display width of the cell in that column (every cell
measures at most the width, and some row attains it), and the empty grid
yields the empty width vector rather than an error. -/
theorem C7_natural_widths (data : List (List (List Nat)))
    (hne : data ≠ [])
    (hrect : ∀ row ∈ data, row.length = (data.headD []).length) :
    calculateDisplayWidths ([] : List (List (List Nat))) = []
    ∧ (calculateDisplayWidths data).length = (data.headD []).length
    ∧ ∀ j, j < (data.headD []).length →
        (∀ row ∈ data,
          measure (row.getD j []) ≤ (calculateDisplayWidths data).getD j 0)
        ∧ ∃ row ∈ data,
            (calculateDisplayWidths data).getD j 0 = measure (row.getD j []) := by
  cases data with
  | nil => exact absurd rfl hne
  | cons r0 rows =>
    have hhead : ((r0 :: rows).headD []) = r0 := rfl
    refine ⟨rfl, ?_, ?_⟩
    · simp [calculateDisplayWidths]
    · intro j hj
      rw [hhead] at hj
      have hget : (calculateDisplayWidths (r0 :: rows)).getD j 0
          = (r0 :: rows).foldl (fun acc row => max acc (measure (row.getD j []))) 0 := by
        rw [calculateDisplayWidths]
        exact getD_range_map _ r0.length j hj
      constructor
      · intro row hrow
        rw [hget]
        exact foldl_max_le_mem (fun row => measure (row.getD j [])) (r0 :: rows) 0 row hrow
      · rw [hget]
        rcases foldl_max_attained (fun row => measure (row.getD j [])) (r0 :: rows) 0
          with h | h
        · refine ⟨r0, by simp, ?_⟩
          have hle : measure (r0.getD j [])
              ≤ (r0 :: rows).foldl (fun acc row => max acc (measure (row.getD j []))) 0 :=
            foldl_max_le_mem (fun row => measure (row.getD j [])) (r0 :: rows) 0 r0 (by simp)
          have h0 : (r0 :: rows).foldl
              (fun acc row => max acc (measure (row.getD j []))) 0 = 0 := h
          omega
        · exact h

/-- C7 witness: the two-row one-column grid with cells "A" and "BC". -/
theorem C7_witness :
    (([[[65]], [[66, 67]]] : List (List (List Nat))) ≠ []
      ∧ ∀ row ∈ ([[[65]], [[66, 67]]] : List (List (List Nat))),
          row.length = (([[[65]], [[66, 67]]] : List (List (List Nat))).headD []).length)
    ∧ (calculateDisplayWidths ([] : List (List (List Nat))) = []
      ∧ (calculateDisplayWidths [[[65]], [[66, 67]]]).length
          = (([[[65]], [[66, 67]]] : List (List (List Nat))).headD []).length
      ∧ ∀ j, j < (([[[65]], [[66, 67]]] : List (List (List Nat))).headD []).length →
          (∀ row ∈ ([[[65]], [[66, 67]]] : List (List (List Nat))),
            measure (row.getD j [])
              ≤ (calculateDisplayWidths [[[65]], [[66, 67]]]).getD j 0)
          ∧ ∃ row ∈ ([[[65]], [[66, 67]]] : List (List (List Nat))),
              (calculateDisplayWidths [[[65]], [[66, 67]]]).getD j 0
                = measure (row.getD j [])) :=
  ⟨⟨by decide, by decide⟩, C7_natural_widths [[[65]], [[66, 67]]] (by decide) (by decide)⟩

/-- C8: when the clamped widths already fit (total rendered width at most
the terminal budget), the fit step hands them to the renderer completely
unchanged: the table is never stretched or otherwise modified. -/
theorem C8_fit_idempotent (showGit : Bool) (nat : List Nat) (budget : Nat)
    (hlen : nat.length ≤ ((columnConstraints showGit).1).length)
    (hfit :
      (clampWidths (columnConstraints showGit).1 (columnConstraints showGit).2 0 nat).sum
        + borderW (clampWidths (columnConstraints showGit).1
            (columnConstraints showGit).2 0 nat).length ≤ budget) :
    layoutWidths (columnConstraints showGit).1
        (clampWidths (columnConstraints showGit).1 (columnConstraints showGit).2 0 nat)
        budget
      = LayoutOutcome.rendered
          (clampWidths (columnConstraints showGit).1 (columnConstraints showGit).2 0 nat) :=
  layoutWidths_fits _ _ _ (clamp_constraints_atLeast showGit nat hlen) hfit

/-- C8 witness: the four-column table with natural widths [22, 7, 14, 10]
at terminal budget 70 (total rendered width 64). -/
theorem C8_witness :
    (([22, 7, 14, 10] : List Nat).length ≤ ((columnConstraints false).1).length
      ∧ (clampWidths (columnConstraints false).1 (columnConstraints false).2 0
            [22, 7, 14, 10]).sum
          + borderW (clampWidths (columnConstraints false).1 (columnConstraints false).2 0
              [22, 7, 14, 10]).length ≤ 70)
    ∧ layoutWidths (columnConstraints false).1
        (clampWidths (columnConstraints false).1 (columnConstraints false).2 0
          [22, 7, 14, 10]) 70
      = LayoutOutcome.rendered
          (clampWidths (columnConstraints false).1 (columnConstraints false).2 0
            [22, 7, 14, 10]) :=
  ⟨⟨by decide, by decide⟩, C8_fit_idempotent false [22, 7, 14, 10] 70 (by decide) (by decide)⟩

/-- C9: whatever width vector the layout phase hands to the renderer, every
column is at least its declared minimum (`lookupMin` with fallback 4): the
shrink pass never takes a clamped width below its column minimum, for any
natural widths and any budget. -/
theorem C9_fit_respects_minimums (showGit : Bool) (nat : List Nat) (budget : Nat)
    (ws' : List Nat)
    (hlen : nat.length ≤ ((columnConstraints showGit).1).length)
    (h : layoutWidths (columnConstraints showGit).1
        (clampWidths (columnConstraints showGit).1 (columnConstraints showGit).2 0 nat)
        budget
      = LayoutOutcome.rendered ws') :
    allAtLeastMins (columnConstraints showGit).1 0 ws' = true := by
  have hAL := clamp_constraints_atLeast showGit nat hlen
  rcases layoutWidths_rendered_inv _ _ _ _ h with h1 | h1
  · rw [h1]
    exact hAL
  · rw [h1]
    exact shrinkGo_atLeast _ _ _ _ _ hAL

/-- C9 witness: the four-column table with natural widths [22, 7, 14, 10]
at budget 60, rendered as [20, 7, 12, 10], every entry at least its
minimum. -/
theorem C9_witness :
    (([22, 7, 14, 10] : List Nat).length ≤ ((columnConstraints false).1).length
      ∧ layoutWidths (columnConstraints false).1
          (clampWidths (columnConstraints false).1 (columnConstraints false).2 0
            [22, 7, 14, 10]) 60
        = LayoutOutcome.rendered [20, 7, 12, 10])
    ∧ allAtLeastMins (columnConstraints false).1 0 [20, 7, 12, 10] = true :=
  ⟨⟨by decide, by decide⟩,
    C9_fit_respects_minimums false [22, 7, 14, 10] 60 [20, 7, 12, 10] (by decide) (by decide)⟩

/-- C10: for every size below 1024^5 the unit exponent computed by
`formatSize` stays at most 3, so the lookup into the four-entry unit table
is in bounds and the function returns a value (sizes below 1024 take the
bytes branch); the precondition is required, because at 1024^5 (which int64
permits) the exponent reaches 4 and the lookup leaves the table. -/
theorem C10_formatSize_unit_bound (s : Nat) (h : s < 1024 ^ 5) :
    sizeExpGo (s / 1024) 0 ≤ 3 ∧ (formatSize s false).isSome = true
    ∧ formatSize (1024 ^ 5) false = none := by
  have hd : s / 1024 < 1024 ^ 4 := by
    rw [Nat.div_lt_iff_lt_mul (by omega)]
    calc s < 1024 ^ 5 := h
      _ = 1024 ^ 4 * 1024 := by ring
  have hexp : sizeExpGo (s / 1024) 0 ≤ 3 := by
    have h3 := sizeExpGo_le 3 (s / 1024) 0 hd
    omega
  refine ⟨hexp, ?_, ?_⟩
  · rw [formatSize, if_neg (by simp)]
    by_cases hs : s < 1024
    · rw [if_pos hs]
      rfl
    · rw [if_neg hs]
      have hl : sizeExpGo (s / 1024) 0 < sizeUnits.length := by
        simp only [sizeUnits, List.length_cons, List.length_nil]
        omega
      rw [List.get?_eq_get hl]
      rfl
  · rw [formatSize, if_neg (by simp), if_neg (by norm_num)]
    have h4 : (1024 : Nat) ^ 5 / 1024 = 1024 ^ 4 := by norm_num
    rw [h4, sizeExpGo_pow4]
    rfl

/-- C10 witness: the bound instantiated at size 2048 (rendered as
kilobytes). -/
theorem C10_witness :
    (2048 : Nat) < 1024 ^ 5
    ∧ (sizeExpGo (2048 / 1024) 0 ≤ 3 ∧ (formatSize 2048 false).isSome = true
      ∧ formatSize (1024 ^ 5) false = none) :=
  ⟨by norm_num, C10_formatSize_unit_bound 2048 (by norm_num)⟩

end Lah
